import Mathlib

/-!
Verification of the npm rc resolution core of this repository
(`src/npm_rc/mod.rs`).

The Rust source is shallowly embedded:

* Rust `String`/`&str` become Lean `String` (a wrapper around `List Char`);
  the longest-prefix walk operates on `List Char` keys.  All byte-index
  slicing in the source happens at `'/'` boundaries (one-byte characters),
  so character-level slicing is an exact model.
* `HashMap` becomes an association list with first-match `List.lookup`
  and an `insertMap` that replaces the binding of an existing key.
* A Rust panic (the `url[..url.len() - 1]` slice on an empty key) is the
  explicit value `RResult.panic`.
* Recursions that the Rust code performs with in-place mutation (`loop`,
  `many0`) are written with an explicit fuel argument plus a wrapper that
  supplies sufficient fuel, so that every definition is a computable
  structural recursion; fuel-irrelevance lemmas below recover the natural
  unfolding equations.
* The `ini` tokenizer (module `ini`, not part of the sources) and the
  external `url` crate are collaborators: their interfaces are modelled
  from the spec, see `IniKey`, `IniValue`, `KeyValueOrSection` and the
  `parseUrl` parameter of `as_resolved`.
* The `monch` parser combinators used by `expand_vars` are an external
  dependency; `or3Step` embeds the exact combinator expression
  `or3(escaped_char, env_var, next_char)` from the source, one step of
  `many0`: `escaped_char` is `preceded(ch('\\'), next_char)`, `env_var`
  parses `${`, then `take_while(c != '\x7d')`, rejects names containing
  `$`, `{` or `\`, then expects `}` — each failure backtracks to the next
  alternative, and `next_char` consumes a single character.  The embedded
  behaviour agrees with all `expand_vars` unit tests in the source.
-/

/-- `RegistryConfig` (src/npm_rc/mod.rs:26): the seven optional credential
fields of one registry entry. -/
structure RegistryConfig where
  auth : Option String
  auth_token : Option String
  username : Option String
  password : Option String
  email : Option String
  certfile : Option String
  keyfile : Option String
deriving DecidableEq

/-- `EMPTY_REGISTRY_CONFIG` (src/npm_rc/mod.rs:15): the all-absent
credential record; also the value of `RegistryConfig::default()`. -/
def EMPTY_REGISTRY_CONFIG : RegistryConfig :=
  ⟨none, none, none, none, none, none, none⟩

/-- `NpmRc` (src/npm_rc/mod.rs:49): the unresolved configuration.
`HashMap`s are modelled as association lists. -/
structure NpmRc where
  registry : Option String
  scope_registries : List (String × String)
  registry_configs : List (String × RegistryConfig)
deriving DecidableEq

/-! ## Variable expansion (`expand_vars`, src/npm_rc/mod.rs:270) -/

/-- A character that disqualifies a `${...}` span from being treated as a
placeholder (src/npm_rc/mod.rs:281). -/
def isBadVarChar (c : Char) : Bool := c = '$' || c = '{' || c = '\\'

/-- The text emitted for a well-formed placeholder with name `varName`
(src/npm_rc/mod.rs:290): the environment value when the lookup succeeds,
otherwise the literal placeholder text re-emitted unchanged. -/
def expandPiece (lookup : String → Option String) (varName : List Char) : List Char :=
  match lookup (String.mk varName) with
  | some v => v.data
  | none => '$' :: '{' :: (varName ++ ['}'])

/-- One step of `or3(escaped_char, env_var, next_char)`
(src/npm_rc/mod.rs:288) on a non-empty input `c :: rest`: the emitted
characters and the remaining input.  `escaped_char` fires first on a
backslash (emitting the next character, or the lone backslash itself via
`next_char` at end of input); `env_var` fires on `${` when the span up to
the next `}` is clean and closed; otherwise `next_char` copies `c`.
`envVarStep` is the body of `env_var` after its `tag("${")`
(src/npm_rc/mod.rs:278): the name is everything up to the first `}`; it
fails (backtracks) when the name contains `$`, `{` or `\` or when no
closing `}` follows. -/
def envVarStep (lookup : String → Option String) (rest2 : List Char) :
    Option (List Char × List Char) :=
  if (rest2.takeWhile (fun x => x ≠ '}')).any isBadVarChar then none
  else
    match rest2.dropWhile (fun x => x ≠ '}') with
    | '}' :: rest3 => some (expandPiece lookup (rest2.takeWhile (fun x => x ≠ '}')), rest3)
    | _ => none

def or3StepCons (lookup : String → Option String) (c : Char) (rest : List Char) :
    List Char × List Char :=
  if c = '\\' then
    match rest with
    | c2 :: rest2 => ([c2], rest2)
    | [] => ([c], rest)
  else if c = '$' then
    match rest with
    | '{' :: rest2 =>
      match envVarStep lookup rest2 with
      | some pr => pr
      | none => ([c], rest)
    | _ => ([c], rest)
  else ([c], rest)

/-- One step of `or3(escaped_char, env_var, next_char)`
(src/npm_rc/mod.rs:288): `none` on empty input (where all three
alternatives fail), otherwise the emitted characters and the remaining
input. -/
def or3Step (lookup : String → Option String) (l : List Char) :
    Option (List Char × List Char) :=
  match l with
  | [] => none
  | c :: rest => some (or3StepCons lookup c rest)

/-- `many0` over `or3Step`, with explicit fuel: collects the emitted
pieces and the remaining (unconsumed) input. -/
def many0RunF (lookup : String → Option String) : Nat → List Char → List (List Char) × List Char
  | 0, l => ([], l)
  | fuel + 1, l =>
    match or3Step lookup l with
    | none => ([], l)
    | some (piece, rest) =>
      let p := many0RunF lookup fuel rest
      (piece :: p.1, p.2)

/-- The `many0(or3(...))` run of `expand_vars`: each step consumes at
least one character, so fuel `l.length + 1` always suffices. -/
def many0Run (lookup : String → Option String) (l : List Char) :
    List (List Char) × List Char :=
  many0RunF lookup (l.length + 1) l

/-- Character-level result of `expand_vars`: the concatenation
(`results.join`) of the emitted pieces. -/
def expandL (lookup : String → Option String) (l : List Char) : List Char :=
  (many0Run lookup l).1.flatten

/-- `expand_vars` (src/npm_rc/mod.rs:270). -/
def expand_vars (input : String) (lookup : String → Option String) : String :=
  String.mk (expandL lookup input.data)

/-- Detects an occurrence of the two-character sequence `${` in a string,
for stating the idempotence claim about `expand_vars`. -/
def hasDollarBrace : List Char → Bool
  | [] => false
  | [_] => false
  | c1 :: c2 :: rest => (c1 = '$' && c2 = '{') || hasDollarBrace (c2 :: rest)

/-! ## The resolver (`registry_url_and_config_for_maybe_scope`,
src/npm_rc/mod.rs:183) -/

/-- Outcome of a Rust computation that can panic: `panic` models the
out-of-bounds slice `url[..url.len() - 1]` taken when `url` is empty. -/
inductive RResult (α : Type) where
  | panic : RResult α
  | ret : α → RResult α
deriving DecidableEq

/-- Index of the last `'/'` in a character list; models
`str::rfind('/')` (src/npm_rc/mod.rs:217). -/
def rfindSlash : List Char → Option Nat
  | [] => none
  | c :: rest =>
    match rfindSlash rest with
    | some i => some (i + 1)
    | none => if c = '/' then some 0 else none

/-- Splits at the first occurrence of `"//"`; models
`str::split_once("//")` (src/npm_rc/mod.rs:200). -/
def splitOnceDS : List Char → Option (List Char × List Char)
  | '/' :: '/' :: rest => some ([], rest)
  | c :: rest => (splitOnceDS rest).map (fun p => (c :: p.1, p.2))
  | [] => none

/-- The prefix-walk loop of the resolver (src/npm_rc/mod.rs:213), with
explicit fuel.  On a hit it returns the stored record; on an empty key it
panics (the slice `url[..url.len() - 1]` underflows); when no further
`'/'` exists it applies the exhaustion rule of src/npm_rc/mod.rs:218;
otherwise it truncates the key after its last interior `'/'`. -/
def walkF (configs : List (String × RegistryConfig)) (original env : String) :
    Nat → List Char → RResult (Option (String × RegistryConfig))
  | 0, _ => .panic
  | fuel + 1, url =>
    match List.lookup (String.mk url) configs with
    | some config => .ret (some (original, config))
    | none =>
      match url with
      | [] => .panic
      | _ :: _ =>
        match rfindSlash (url.take (url.length - 1)) with
        | none =>
          if original = env then .ret none
          else .ret (some (original, EMPTY_REGISTRY_CONFIG))
        | some i => walkF configs original env fuel (url.take (i + 1))

/-- The prefix walk with sufficient fuel: every iteration strictly
shortens the key, so `url.length + 1` steps always suffice. -/
def walk (configs : List (String × RegistryConfig)) (original env : String)
    (url : List Char) : RResult (Option (String × RegistryConfig)) :=
  walkF configs original env (url.length + 1) url

/-- The sequence of keys the prefix walk would visit starting from `url`
(ignoring hits), deepest first, with explicit fuel. -/
def walkChainF : Nat → List Char → List (List Char)
  | 0, url => [url]
  | fuel + 1, url =>
    url ::
      match url with
      | [] => []
      | _ :: _ =>
        match rfindSlash (url.take (url.length - 1)) with
        | none => []
        | some i => walkChainF fuel (url.take (i + 1))

/-- The visited-key chain with sufficient fuel. -/
def walkChain (url : List Char) : List (List Char) :=
  walkChainF (url.length + 1) url

/-- Models Rust `str::ends_with('/')`. -/
def endsWithSlash (s : String) : Bool := s.data.getLast? == some '/'

/-- The base registry string chosen in priority order (src/npm_rc/mod.rs:188):
scope entry, then the global `registry`, then the fallback. -/
def baseRegistryUrl (rc : NpmRc) (scope : Option String) (env : String) : String :=
  match scope.bind (fun s => List.lookup s rc.scope_registries) with
  | some u => u
  | none =>
    match rc.registry with
    | some u => u
    | none => env

/-- `original_registry_url` (src/npm_rc/mod.rs:193): the base registry
string normalized to end with `'/'`. -/
def originalUrl (rc : NpmRc) (scope : Option String) (env : String) : String :=
  let r := baseRegistryUrl rc scope env
  if endsWithSlash r then r else r ++ "/"

/-- The starting lookup key of the prefix walk (src/npm_rc/mod.rs:199):
the text after the first `"//"` of the normalized url, with
`scope_name + "/"` appended when a scope is given; `none` when the url
contains no `"//"` (the `?` early return). -/
def startKey (rc : NpmRc) (scope : Option String) (env : String) : Option (List Char) :=
  match splitOnceDS (originalUrl rc scope env).data with
  | none => none
  | some (_, right) =>
    some
      (match scope with
      | some s => right ++ s.data ++ ['/']
      | none => right)

/-- `NpmRc::registry_url_and_config_for_maybe_scope`
(src/npm_rc/mod.rs:183). -/
def registry_url_and_config_for_maybe_scope (rc : NpmRc) (scope : Option String)
    (env : String) : RResult (Option (String × RegistryConfig)) :=
  match startKey rc scope env with
  | none => .ret none
  | some s => walk rc.registry_configs (originalUrl rc scope env) env s

/-! ## The config builder (`NpmRc::parse`, src/npm_rc/mod.rs:56)

The `ini` tokenizer lives in the module `ini`, which is not among the
sources; its output record types are modelled from the spec below, and
`NpmRc::parse` is embedded as the builder `parseRecords` over an
arbitrary tokenizer output. -/

/-- Modelled from the spec: the tokenizer's key type (`ini::Key`), which
is either a plain key or a quoted string key; only plain keys are
inspected by the builder. -/
inductive IniKey where
  | plain : String → IniKey
  | quoted : String → IniKey
deriving DecidableEq

/-- Modelled from the spec: the tokenizer's value type (`ini::Value`);
only plain string values are consulted by the builder. -/
inductive IniValue where
  | str : String → IniValue
  | other : IniValue
deriving DecidableEq

/-- Modelled from the spec: one key-value record of the tokenizer. -/
structure IniKeyValue where
  key : IniKey
  value : IniValue
deriving DecidableEq

/-- Modelled from the spec: the tokenizer's output records — key-value
pairs and section markers (`ini::KeyValueOrSection`); sections are
ignored by the builder. -/
inductive KeyValueOrSection where
  | kv : IniKeyValue → KeyValueOrSection
  | sec : KeyValueOrSection
deriving DecidableEq

/-- Splits at the last `':'`; models `str::rsplit_once(':')`
(src/npm_rc/mod.rs:67). -/
def rsplitColonChars : List Char → Option (List Char × List Char)
  | [] => none
  | c :: rest =>
    match rsplitColonChars rest with
    | some p => some (c :: p.1, p.2)
    | none => if c = ':' then some ([], rest) else none

/-- Models `str::strip_prefix('@')` (src/npm_rc/mod.rs:68). -/
def stripAt : List Char → Option (List Char)
  | [] => none
  | c :: rest => if c = '@' then some rest else none

/-- Models `str::strip_prefix("//")` (src/npm_rc/mod.rs:75). -/
def stripSlashes : List Char → Option (List Char)
  | c1 :: c2 :: rest => if c1 = '/' ∧ c2 = '/' then some rest else none
  | _ => none

/-- `HashMap::insert` on the association-list model: replaces the
binding of an existing key, otherwise appends. -/
def insertMap {α : Type} : List (String × α) → String → α → List (String × α)
  | [], k, v => [(k, v)]
  | (k0, v0) :: rest, k, v =>
    if k0 = k then (k, v) :: rest else (k0, v0) :: insertMap rest k v

/-- The credential-field update of src/npm_rc/mod.rs:82: sets the field
selected by `right`, leaving the record unchanged for unrecognized
suffixes. -/
def applyField (right : String) (value : String) (c : RegistryConfig) : RegistryConfig :=
  if right = "_auth" then { c with auth := some value }
  else if right = "_authToken" then { c with auth_token := some value }
  else if right = "username" then { c with username := some value }
  else if right = "_password" then { c with password := some value }
  else if right = "email" then { c with email := some value }
  else if right = "certfile" then { c with certfile := some value }
  else if right = "keyfile" then { c with keyfile := some value }
  else c

/-- Processing of one tokenizer record by `NpmRc::parse`
(src/npm_rc/mod.rs:63-120): classifies the key and updates the
accumulated configuration.  The `//`-branch mirrors
`entry(..).or_default()` followed by the field update: the current
record (or the default) is fetched, updated, and re-inserted. -/
def applyRecord (env : String → Option String) (rc : NpmRc) :
    KeyValueOrSection → NpmRc
  | .sec => rc
  | .kv kvp =>
    match kvp.key with
    | .quoted _ => rc
    | .plain k =>
      match rsplitColonChars k.data with
      | some (leftD, rightD) =>
        match stripAt leftD with
        | some scopeD =>
          if String.mk rightD = "registry" then
            match kvp.value with
            | .str text =>
              { rc with scope_registries :=
                  insertMap rc.scope_registries (String.mk scopeD) (expand_vars text env) }
            | .other => rc
          else rc
        | none =>
          match stripSlashes leftD with
          | some hostD =>
            match kvp.value with
            | .str text =>
              let cur := (List.lookup (String.mk hostD) rc.registry_configs).getD
                EMPTY_REGISTRY_CONFIG
              let upd := applyField (String.mk rightD) (expand_vars text env) cur
              { rc with registry_configs :=
                  insertMap rc.registry_configs (String.mk hostD) upd }
            | .other => rc
          | none => rc
      | none =>
        if k = "registry" then
          match kvp.value with
          | .str text => { rc with registry := some (expand_vars text env) }
          | .other => rc
        else rc

/-- `NpmRc::parse` (src/npm_rc/mod.rs:56) downstream of the tokenizer:
folds the builder over the tokenizer's records, starting from the
default (empty) configuration. -/
def parseRecords (recs : List KeyValueOrSection) (env : String → Option String) : NpmRc :=
  recs.foldl (applyRecord env) ⟨none, [], []⟩

/-! ## The resolved view (`NpmRc::as_resolved`, src/npm_rc/mod.rs:125) -/

/-- Modelled from the spec: a parsed URL of the external `url` crate,
abstracted as its serialized text (`Url::as_str`). -/
structure UrlT where
  s : String
deriving DecidableEq

/-- The distinct failure modes of `as_resolved`: the two
`Url::parse` context errors (src/npm_rc/mod.rs:136 and 157), the
`anyhow::bail!` of src/npm_rc/mod.rs:142 raised when the resolver yields
nothing for a scope, and a panic propagated from the resolver. -/
inductive ResolveError where
  | urlParseForScope : String → ResolveError
  | failedResolvingScope : String → ResolveError
  | urlParseDefault : ResolveError
  | panicked : ResolveError
deriving DecidableEq

/-- `RegistryConfigWithUrl` (src/npm_rc/mod.rs:37). -/
structure RegistryConfigWithUrl where
  registry_url : UrlT
  config : RegistryConfig
deriving DecidableEq

/-- `ResolvedNpmRc` (src/npm_rc/mod.rs:43); the scope map is an
association list in iteration order. -/
structure ResolvedNpmRc where
  default_config : RegistryConfigWithUrl
  scopes : List (String × RegistryConfigWithUrl)
deriving DecidableEq

/-- Outcome of the per-scope loop of `as_resolved`
(src/npm_rc/mod.rs:130-152). -/
inductive ScopesResult where
  | err : ResolveError → ScopesResult
  | ok : List (String × RegistryConfigWithUrl) → ScopesResult
deriving DecidableEq

/-- Outcome of `as_resolved`. -/
inductive ResolvedResult where
  | err : ResolveError → ResolvedResult
  | ok : ResolvedNpmRc → ResolvedResult
deriving DecidableEq

/-- The per-scope loop of `as_resolved` (src/npm_rc/mod.rs:130): resolve
each scope, fail on the first scope whose resolution yields nothing or
whose url does not parse. -/
def resolveScopes (parseUrl : String → Option UrlT) (rc : NpmRc) (env : UrlT) :
    List String → ScopesResult
  | [] => .ok []
  | scope :: rest =>
    match registry_url_and_config_for_maybe_scope rc (some scope) env.s with
    | .panic => .err .panicked
    | .ret none => .err (.failedResolvingScope scope)
    | .ret (some (url, config)) =>
      match parseUrl url with
      | none => .err (.urlParseForScope scope)
      | some u =>
        match resolveScopes parseUrl rc env rest with
        | .err e => .err e
        | .ok l => .ok ((scope, ⟨u, config⟩) :: l)

/-- `NpmRc::as_resolved` (src/npm_rc/mod.rs:125), with the external
`Url::parse` abstracted as the `parseUrl` parameter: build every scope
entry, then the default entry, falling back to the fallback url with
empty credentials when the resolver yields nothing for the default. -/
def as_resolved (parseUrl : String → Option UrlT) (rc : NpmRc) (env : UrlT) :
    ResolvedResult :=
  match resolveScopes parseUrl rc env (rc.scope_registries.map Prod.fst) with
  | .err e => .err e
  | .ok scopes =>
    match registry_url_and_config_for_maybe_scope rc none env.s with
    | .panic => .err .panicked
    | .ret (some p) =>
      match parseUrl p.1 with
      | none => .err .urlParseDefault
      | some u => .ok ⟨⟨u, p.2⟩, scopes⟩
    | .ret none => .ok ⟨⟨env, EMPTY_REGISTRY_CONFIG⟩, scopes⟩

/-! ## Lemmas about the variable expander -/

/-- A successful `env_var` body leaves at most `rest2` behind. -/
theorem envVarStep_some {lookup : String → Option String} {rest2 p r : List Char}
    (h : envVarStep lookup rest2 = some (p, r)) : r.length ≤ rest2.length := by
  unfold envVarStep at h
  by_cases hbad : ((rest2.takeWhile (fun x => x ≠ '}')).any isBadVarChar) = true
  · rw [if_pos hbad] at h
    exact absurd h (by simp)
  · rw [if_neg hbad] at h
    split at h
    · rename_i rest3 heq
      have hd : (rest2.dropWhile (fun x => x ≠ '}')).length ≤ rest2.length :=
        (List.dropWhile_sublist _).length_le
      rw [heq] at hd
      simp only [Option.some.injEq, Prod.mk.injEq] at h
      obtain ⟨-, hr⟩ := h
      subst hr
      simp only [List.length_cons] at hd
      omega
    · exact absurd h (by simp)

/-- One parsing step never lengthens the remaining input beyond `rest`. -/
theorem or3StepCons_length (lookup : String → Option String) (c : Char) (rest : List Char) :
    (or3StepCons lookup c rest).2.length ≤ rest.length := by
  unfold or3StepCons
  split
  · split
    · simp
    · simp
  · split
    · split
      · rename_i rest2
        split
        · rename_i pr heq
          obtain ⟨p, r⟩ := pr
          have := envVarStep_some heq
          simp only [List.length_cons]
          omega
        · simp
      · simp
    · simp

/-- Each successful `or3Step` consumes at least one character. -/
theorem or3Step_length (lookup : String → Option String) :
    ∀ l p r, or3Step lookup l = some (p, r) → r.length < l.length := by
  intro l p r h
  match l with
  | [] => simp [or3Step] at h
  | c :: rest =>
    simp only [or3Step, Option.some.injEq] at h
    have hr : r = (or3StepCons lookup c rest).2 := by rw [h]
    have := or3StepCons_length lookup c rest
    rw [hr]
    simp only [List.length_cons]
    omega

/-- `or3Step` fails only on empty input. -/
theorem or3Step_none {lookup : String → Option String} {l : List Char}
    (h : or3Step lookup l = none) : l = [] := by
  cases l with
  | nil => rfl
  | cons c rest => simp [or3Step] at h

/-- The run of `many0` does not depend on the fuel once it is sufficient. -/
theorem many0RunF_congr (lookup : String → Option String) :
    ∀ f1 f2 l, l.length < f1 → l.length < f2 →
      many0RunF lookup f1 l = many0RunF lookup f2 l := by
  intro f1
  induction f1 with
  | zero => intro f2 l h1 h2; omega
  | succ f1 ih =>
    intro f2 l h1 h2
    match f2 with
    | 0 => omega
    | f2 + 1 =>
      simp only [many0RunF]
      cases hstep : or3Step lookup l with
      | none => rfl
      | some pr =>
        obtain ⟨piece, rest⟩ := pr
        have hlt := or3Step_length lookup l piece rest hstep
        simp only []
        rw [ih f2 rest (by omega) (by omega)]

/-- One-step unfolding of `many0RunF` at positive fuel. -/
theorem many0RunF_succ (lookup : String → Option String) (fuel : Nat) (l : List Char) :
    many0RunF lookup (fuel + 1) l =
      match or3Step lookup l with
      | none => ([], l)
      | some (piece, rest) =>
          (piece :: (many0RunF lookup fuel rest).1, (many0RunF lookup fuel rest).2) := by
  cases hstep : or3Step lookup l with
  | none => simp only [many0RunF, hstep]
  | some pr =>
    obtain ⟨piece, rest⟩ := pr
    simp only [many0RunF, hstep]

/-- Unfolding equation for the `many0` run. -/
theorem many0Run_eq (lookup : String → Option String) (l : List Char) :
    many0Run lookup l =
      match or3Step lookup l with
      | none => ([], l)
      | some (piece, rest) =>
          (piece :: (many0Run lookup rest).1, (many0Run lookup rest).2) := by
  show many0RunF lookup (l.length + 1) l = _
  rw [many0RunF_succ]
  cases hstep : or3Step lookup l with
  | none => rfl
  | some pr =>
    obtain ⟨piece, rest⟩ := pr
    have hlt := or3Step_length lookup l piece rest hstep
    have hc := many0RunF_congr lookup l.length (rest.length + 1) rest (by omega) (by omega)
    show (piece :: (many0RunF lookup l.length rest).1, (many0RunF lookup l.length rest).2) = _
    rw [hc]
    rfl

/-- Unfolding equation for the expansion result. -/
theorem expandL_eq (lookup : String → Option String) (l : List Char) :
    expandL lookup l =
      match or3Step lookup l with
      | none => []
      | some (piece, rest) => piece ++ expandL lookup rest := by
  unfold expandL
  rw [many0Run_eq]
  cases or3Step lookup l with
  | none => simp
  | some pr => obtain ⟨p, r⟩ := pr; simp

/-- The `many0` run always consumes the whole input. -/
theorem many0Run_snd_eq_nil (lookup : String → Option String) :
    ∀ n l, l.length ≤ n → (many0Run lookup l).2 = [] := by
  intro n
  induction n with
  | zero =>
    intro l h
    have hl : l = [] := by
      cases l with
      | nil => rfl
      | cons c rest => simp at h
    subst hl
    rw [many0Run_eq]
    rfl
  | succ n ih =>
    intro l hlen
    rw [many0Run_eq]
    cases hstep : or3Step lookup l with
    | none => simpa using (or3Step_none hstep).symm
    | some pr =>
      obtain ⟨piece, rest⟩ := pr
      have hlt := or3Step_length lookup l piece rest hstep
      simp only []
      exact ih rest (by omega)

/-- A step on a character that is not a backslash and does not open a
`${` placeholder just copies the character. -/
theorem or3StepCons_plain (lookup : String → Option String) (c : Char) (rest : List Char)
    (h1 : c ≠ '\\') (h2 : c = '$' → rest.head? ≠ some '{') :
    or3StepCons lookup c rest = ([c], rest) := by
  unfold or3StepCons
  rw [if_neg h1]
  by_cases hc : c = '$'
  · subst hc
    rw [if_pos rfl]
    match rest, h2 with
    | [], _ => rfl
    | c2 :: rest2, h2 =>
      have hne : c2 ≠ '{' := by
        intro hh
        exact (h2 rfl) (by simp [hh])
      split
      · rename_i heq
        injection heq with hh1 _
        exact absurd hh1 hne
      · rfl
  · rw [if_neg hc]

/-- `hasDollarBrace` is monotone under removing the head character. -/
theorem hasDollarBrace_cons {c : Char} {rest : List Char}
    (h : hasDollarBrace (c :: rest) = false) : hasDollarBrace rest = false := by
  cases rest with
  | nil => rfl
  | cons c2 rest2 =>
    simp only [hasDollarBrace, Bool.or_eq_false_iff] at h
    exact h.2

/-- The head pair of a `${`-free list is not `'$', '{'`. -/
theorem hasDollarBrace_head {c c2 : Char} {rest : List Char}
    (h : hasDollarBrace (c :: c2 :: rest) = false) (hc : c = '$') : c2 ≠ '{' := by
  intro hc2
  subst hc
  subst hc2
  simp [hasDollarBrace] at h

/-- On input with no `${` and no backslash, expansion copies every
character. -/
theorem expandL_id (lookup : String → Option String) :
    ∀ n l, l.length ≤ n → hasDollarBrace l = false → (∀ c ∈ l, c ≠ '\\') →
      expandL lookup l = l := by
  intro n
  induction n with
  | zero =>
    intro l h _ _
    have hl : l = [] := by
      cases l with
      | nil => rfl
      | cons c rest => simp at h
    subst hl
    rw [expandL_eq]
    rfl
  | succ n ih =>
    intro l hlen hd hb
    cases l with
    | nil => rw [expandL_eq]; rfl
    | cons c rest =>
      have hplain : or3Step lookup (c :: rest) = some ([c], rest) := by
        show some (or3StepCons lookup c rest) = _
        rw [or3StepCons_plain lookup c rest (hb c (List.mem_cons_self c rest))]
        intro hc hhead
        match rest, hhead with
        | c2 :: rest2, hhead =>
          have hc2 : c2 = '{' := by simpa using hhead
          exact hasDollarBrace_head hd hc hc2
      rw [expandL_eq, hplain]
      show [c] ++ expandL lookup rest = c :: rest
      rw [ih rest (by simp only [List.length_cons] at hlen; omega) (hasDollarBrace_cons hd)
        (fun x hx => hb x (List.mem_cons_of_mem c hx))]
      rfl

/-- C6 counterexample: the string `"\a"` contains no `${`, yet expansion
is not the identity on it — the backslash escape of `expand_vars`
(src/npm_rc/mod.rs:274) collapses `"\a"` to `"a"`, refuting the claim
that expansion is the identity on every input without `${`. -/
theorem claim_C6_counterexample :
    hasDollarBrace ("\\a").data = false ∧ expand_vars "\\a" (fun _ => none) ≠ "\\a" := by
  constructor
  · decide
  · decide

/-- C6 (amended): expansion is the identity on every input that contains
no occurrence of `${` and no backslash; excluding backslashes is forced
by the escape rule of `expand_vars` (src/npm_rc/mod.rs:274). -/
theorem claim_C6_no_placeholder_identity (s : String) (lookup : String → Option String)
    (h1 : hasDollarBrace s.data = false) (h2 : ∀ c ∈ s.data, c ≠ '\\') :
    expand_vars s lookup = s := by
  unfold expand_vars
  rw [expandL_id lookup s.data.length s.data le_rfl h1 h2]

/-- C6 witness: the amended identity at the concrete input `"abc"`. -/
theorem claim_C6_witness : expand_vars "abc" (fun _ => none) = "abc" :=
  claim_C6_no_placeholder_identity "abc" (fun _ => none) (by decide) (by decide)

/-- C7: a backslash-escaped `$` never starts a placeholder — for every
lookup function, `expand_vars "a\${X}b"` yields `"a${X}b"`: the
backslash consumes itself and emits `$` verbatim, and the following
`{X}b` is copied character by character (src/npm_rc/mod.rs:274), so the
lookup function is never consulted. -/
theorem claim_C7_escaped_placeholder (lookup : String → Option String) :
    expand_vars "a\\${X}b" lookup = "a${X}b" := rfl

/-- A `${` whose span up to the next `}` contains `$`, `{` or `\` is
rejected by `env_var` (src/npm_rc/mod.rs:281) and falls back to
`next_char`. -/
theorem or3StepCons_bad (lookup : String → Option String) (rest2 : List Char)
    (h : (rest2.takeWhile (fun x => x ≠ '}')).any isBadVarChar = true) :
    or3StepCons lookup '$' ('{' :: rest2) = (['$'], '{' :: rest2) := by
  have henv : envVarStep lookup rest2 = none := by
    unfold envVarStep
    rw [if_pos h]
  simp [or3StepCons, henv]

/-- C8: a malformed placeholder span falls through to literal copying —
when the text between a `${` and the next `}` contains `$`, `{` or `\`,
that `${` is not treated as a placeholder: the step emits the literal
`'$'` and processing resumes at the `'{'` under the ordinary
per-character rules.  The equation holds uniformly in the lookup
function, which is therefore never invoked for the rejected span. -/
theorem claim_C8_malformed_span (lookup : String → Option String) (rest2 : List Char)
    (h : (rest2.takeWhile (fun x => x ≠ '}')).any isBadVarChar = true) :
    expandL lookup ('$' :: '{' :: rest2) = '$' :: expandL lookup ('{' :: rest2) := by
  have hstep : or3Step lookup ('$' :: '{' :: rest2) = some (['$'], '{' :: rest2) := by
    show some (or3StepCons lookup '$' ('{' :: rest2)) = _
    rw [or3StepCons_bad lookup rest2 h]
  rw [expandL_eq, hstep]
  rfl

/-- C8 witness: the span `VA$R` of `${VA$R}test` contains `$`, so the
`${` is copied literally. -/
theorem claim_C8_witness :
    expandL (fun _ => none) ('$' :: '{' :: ['V', 'A', '$', 'R', '}', 't']) =
      '$' :: expandL (fun _ => none) ('{' :: ['V', 'A', '$', 'R', '}', 't']) :=
  claim_C8_malformed_span (fun _ => none) ['V', 'A', '$', 'R', '}', 't'] (by decide)

/-- C9: `expand_vars` is total — the `many0` run never fails (every
inner failure backtracks, so the `.unwrap()` of src/npm_rc/mod.rs:299
cannot panic) and it consumes the entire input, so the final
`assert!(input.is_empty())` (src/npm_rc/mod.rs:300) always holds. -/
theorem claim_C9_expand_vars_total (input : String) (lookup : String → Option String) :
    (many0Run lookup input.data).2 = [] :=
  many0Run_snd_eq_nil lookup input.data.length input.data le_rfl

/-! ## Lemmas about the prefix walk -/

/-- `rfindSlash` returns an index inside the list. -/
theorem rfindSlash_lt : ∀ l i, rfindSlash l = some i → i < l.length := by
  intro l
  induction l with
  | nil => intro i h; simp [rfindSlash] at h
  | cons c rest ih =>
    intro i h
    simp only [rfindSlash] at h
    cases hr : rfindSlash rest with
    | some j =>
      rw [hr] at h
      simp only [Option.some.injEq] at h
      subst h
      have := ih j hr
      simp only [List.length_cons]
      omega
    | none =>
      rw [hr] at h
      by_cases hc : c = '/'
      · rw [if_pos hc] at h
        simp only [Option.some.injEq] at h
        subst h
        simp
      · rw [if_neg hc] at h
        simp at h

/-- The prefix walk does not depend on the fuel once it is sufficient. -/
theorem walkF_congr (configs : List (String × RegistryConfig)) (original env : String) :
    ∀ f1 f2 url, url.length < f1 → url.length < f2 →
      walkF configs original env f1 url = walkF configs original env f2 url := by
  intro f1
  induction f1 with
  | zero => intro f2 url h1 h2; omega
  | succ f1 ih =>
    intro f2 url h1 h2
    match f2 with
    | 0 => omega
    | f2 + 1 =>
      simp only [walkF]
      cases hlook : List.lookup (String.mk url) configs with
      | some c => rfl
      | none =>
        cases url with
        | nil => rfl
        | cons u url' =>
          simp only []
          cases hr : rfindSlash ((u :: url').take ((u :: url').length - 1)) with
          | none => rfl
          | some i =>
            simp only []
            have hi := rfindSlash_lt _ i hr
            rw [List.length_take] at hi
            have hi2 : i < (u :: url').length - 1 := lt_of_lt_of_le hi (min_le_left _ _)
            have ht : ((u :: url').take (i + 1)).length ≤ i + 1 := List.length_take_le _ _
            apply ih
            · simp only [List.length_cons] at h1 hi2 ⊢
              omega
            · simp only [List.length_cons] at h2 hi2 ⊢
              omega

/-- One-step unfolding of `walkF` at positive fuel. -/
theorem walkF_succ (configs : List (String × RegistryConfig)) (original env : String)
    (fuel : Nat) (url : List Char) :
    walkF configs original env (fuel + 1) url =
      match List.lookup (String.mk url) configs with
      | some config => .ret (some (original, config))
      | none =>
        match url with
        | [] => .panic
        | _ :: _ =>
          match rfindSlash (url.take (url.length - 1)) with
          | none =>
            if original = env then .ret none
            else .ret (some (original, EMPTY_REGISTRY_CONFIG))
          | some i => walkF configs original env fuel (url.take (i + 1)) := rfl

/-- Unfolding equation for the prefix walk. -/
theorem walk_eq (configs : List (String × RegistryConfig)) (original env : String)
    (url : List Char) :
    walk configs original env url =
      match List.lookup (String.mk url) configs with
      | some config => .ret (some (original, config))
      | none =>
        match url with
        | [] => .panic
        | _ :: _ =>
          match rfindSlash (url.take (url.length - 1)) with
          | none =>
            if original = env then .ret none
            else .ret (some (original, EMPTY_REGISTRY_CONFIG))
          | some i => walk configs original env (url.take (i + 1)) := by
  show walkF configs original env (url.length + 1) url = _
  rw [walkF_succ]
  cases hlook : List.lookup (String.mk url) configs with
  | some c => rfl
  | none =>
    cases url with
    | nil => rfl
    | cons u url' =>
      simp only []
      cases hr : rfindSlash ((u :: url').take ((u :: url').length - 1)) with
      | none => rfl
      | some i =>
        simp only []
        have hi := rfindSlash_lt _ i hr
        rw [List.length_take] at hi
        have hi2 : i < (u :: url').length - 1 := lt_of_lt_of_le hi (min_le_left _ _)
        have ht : ((u :: url').take (i + 1)).length ≤ i + 1 := List.length_take_le _ _
        exact walkF_congr configs original env ((u :: url').length)
          (((u :: url').take (i + 1)).length + 1) ((u :: url').take (i + 1))
          (by simp only [List.length_cons] at hi2 ⊢; omega) (by omega)

/-- The visited-key chain does not depend on the fuel once sufficient. -/
theorem walkChainF_congr :
    ∀ f1 f2 url, url.length < f1 → url.length < f2 →
      walkChainF f1 url = walkChainF f2 url := by
  intro f1
  induction f1 with
  | zero => intro f2 url h1 h2; omega
  | succ f1 ih =>
    intro f2 url h1 h2
    match f2 with
    | 0 => omega
    | f2 + 1 =>
      simp only [walkChainF]
      cases url with
      | nil => rfl
      | cons u url' =>
        simp only []
        cases hr : rfindSlash ((u :: url').take ((u :: url').length - 1)) with
        | none => rfl
        | some i =>
          simp only []
          have hi := rfindSlash_lt _ i hr
          rw [List.length_take] at hi
          have hi2 : i < (u :: url').length - 1 := lt_of_lt_of_le hi (min_le_left _ _)
          have ht : ((u :: url').take (i + 1)).length ≤ i + 1 := List.length_take_le _ _
          rw [ih f2 ((u :: url').take (i + 1))
            (by simp only [List.length_cons] at h1 hi2 ⊢; omega)
            (by simp only [List.length_cons] at h2 hi2 ⊢; omega)]

/-- One-step unfolding of `walkChainF` at positive fuel. -/
theorem walkChainF_succ (fuel : Nat) (url : List Char) :
    walkChainF (fuel + 1) url =
      url ::
        match url with
        | [] => []
        | _ :: _ =>
          match rfindSlash (url.take (url.length - 1)) with
          | none => []
          | some i => walkChainF fuel (url.take (i + 1)) := rfl

/-- Unfolding equation for the visited-key chain. -/
theorem walkChain_eq (url : List Char) :
    walkChain url =
      url ::
        match url with
        | [] => []
        | _ :: _ =>
          match rfindSlash (url.take (url.length - 1)) with
          | none => []
          | some i => walkChain (url.take (i + 1)) := by
  show walkChainF (url.length + 1) url = _
  rw [walkChainF_succ]
  cases url with
  | nil => rfl
  | cons u url' =>
    simp only []
    cases hr : rfindSlash ((u :: url').take ((u :: url').length - 1)) with
    | none => rfl
    | some i =>
      simp only []
      have hi := rfindSlash_lt _ i hr
      rw [List.length_take] at hi
      have hi2 : i < (u :: url').length - 1 := lt_of_lt_of_le hi (min_le_left _ _)
      have ht : ((u :: url').take (i + 1)).length ≤ i + 1 := List.length_take_le _ _
      rw [walkChainF_congr ((u :: url').length) (((u :: url').take (i + 1)).length + 1)
        ((u :: url').take (i + 1)) (by simp only [List.length_cons] at hi2 ⊢; omega)
        (by omega)]
      rfl

/-- The start key is on its own chain. -/
theorem walkChain_self_mem (url : List Char) : url ∈ walkChain url := by
  rw [walkChain_eq]
  exact List.mem_cons_self _ _

/-- Every element of the chain is the start key or strictly shorter. -/
theorem walkChain_mem_le :
    ∀ n url Q, url.length ≤ n → Q ∈ walkChain url →
      Q = url ∨ Q.length < url.length := by
  intro n
  induction n with
  | zero =>
    intro url Q hlen hQ
    have hnil : url = [] := by
      cases url with
      | nil => rfl
      | cons u url' => simp at hlen
    subst hnil
    rw [walkChain_eq] at hQ
    simp at hQ
    left
    exact hQ
  | succ n ih =>
    intro url Q hlen hQ
    rw [walkChain_eq] at hQ
    rcases List.mem_cons.mp hQ with h | h
    · left; exact h
    · right
      cases url with
      | nil => simp at h
      | cons u url' =>
        cases hr : rfindSlash ((u :: url').take ((u :: url').length - 1)) with
        | none => rw [hr] at h; simp at h
        | some i =>
          rw [hr] at h
          have hi := rfindSlash_lt _ i hr
          rw [List.length_take] at hi
          have hi2 : i < (u :: url').length - 1 := lt_of_lt_of_le hi (min_le_left _ _)
          have ht : ((u :: url').take (i + 1)).length ≤ i + 1 := List.length_take_le _ _
          rcases ih ((u :: url').take (i + 1)) Q
              (by simp only [List.length_cons] at hlen hi2 ⊢; omega) h with h1 | h1
          · subst h1
            simp only [List.length_cons] at hi2 ⊢
            omega
          · simp only [List.length_cons] at hi2 ⊢
            omega

/-- The walk returns the record stored at the deepest chain element that
has an entry: any hit `P` on the chain with all longer chain elements
missing is the returned record. -/
theorem walk_first_hit (configs : List (String × RegistryConfig)) (original env : String) :
    ∀ n url P c, url.length ≤ n → P ∈ walkChain url →
      List.lookup (String.mk P) configs = some c →
      (∀ Q ∈ walkChain url, P.length < Q.length →
        List.lookup (String.mk Q) configs = none) →
      walk configs original env url = .ret (some (original, c)) := by
  intro n
  induction n with
  | zero =>
    intro url P c hlen hP hc hdeep
    have hnil : url = [] := by
      cases url with
      | nil => rfl
      | cons u url' => simp at hlen
    subst hnil
    rw [walkChain_eq] at hP
    simp at hP
    subst hP
    rw [walk_eq, hc]
  | succ n ih =>
    intro url P c hlen hP hc hdeep
    rw [walk_eq]
    cases hlook : List.lookup (String.mk url) configs with
    | some c0 =>
      rcases walkChain_mem_le (n + 1) url P hlen hP with h | h
      · subst h
        rw [hc] at hlook
        injection hlook with h0
        subst h0
        rfl
      · have hnone := hdeep url (walkChain_self_mem url) h
        rw [hnone] at hlook
        exact absurd hlook (by simp)
    | none =>
      have hPne : P ≠ url := by
        intro hh
        subst hh
        rw [hc] at hlook
        exact absurd hlook (by simp)
      cases url with
      | nil =>
        rw [walkChain_eq] at hP
        simp at hP
        exact absurd hP hPne
      | cons u url' =>
        simp only []
        cases hr : rfindSlash ((u :: url').take ((u :: url').length - 1)) with
        | none =>
          rw [walkChain_eq, hr] at hP
          simp at hP
          exact absurd hP hPne
        | some i =>
          simp only []
          have hi := rfindSlash_lt _ i hr
          rw [List.length_take] at hi
          have hi2 : i < (u :: url').length - 1 := lt_of_lt_of_le hi (min_le_left _ _)
          have ht : ((u :: url').take (i + 1)).length ≤ i + 1 := List.length_take_le _ _
          have hPin : P ∈ walkChain ((u :: url').take (i + 1)) := by
            rw [walkChain_eq, hr] at hP
            rcases List.mem_cons.mp hP with hh | hh
            · exact absurd hh hPne
            · exact hh
          apply ih ((u :: url').take (i + 1)) P c
            (by simp only [List.length_cons] at hlen hi2 ⊢; omega) hPin hc
          intro Q hQ hPQ
          apply hdeep Q _ hPQ
          rw [walkChain_eq, hr]
          exact List.mem_cons_of_mem _ hQ

/-- When no chain element has an entry and the start key is non-empty,
the walk reaches the exhaustion rule. -/
theorem walk_all_miss (configs : List (String × RegistryConfig)) (original env : String) :
    ∀ n url, url.length ≤ n → url ≠ [] →
      (∀ Q ∈ walkChain url, List.lookup (String.mk Q) configs = none) →
      walk configs original env url =
        if original = env then .ret none
        else .ret (some (original, EMPTY_REGISTRY_CONFIG)) := by
  intro n
  induction n with
  | zero =>
    intro url hlen hne _
    cases url with
    | nil => exact absurd rfl hne
    | cons u url' => simp at hlen
  | succ n ih =>
    intro url hlen hne hmiss
    rw [walk_eq, hmiss url (walkChain_self_mem url)]
    cases url with
    | nil => exact absurd rfl hne
    | cons u url' =>
      simp only []
      cases hr : rfindSlash ((u :: url').take ((u :: url').length - 1)) with
      | none => rfl
      | some i =>
        simp only []
        have hi := rfindSlash_lt _ i hr
        rw [List.length_take] at hi
        have hi2 : i < (u :: url').length - 1 := lt_of_lt_of_le hi (min_le_left _ _)
        have ht : ((u :: url').take (i + 1)).length ≤ i + 1 := List.length_take_le _ _
        apply ih ((u :: url').take (i + 1))
          (by simp only [List.length_cons] at hlen hi2 ⊢; omega)
          (by simp [List.take_succ_cons])
        intro Q hQ
        apply hmiss Q
        rw [walkChain_eq, hr]
        exact List.mem_cons_of_mem _ hQ

/-- A walk from a non-empty key never panics. -/
theorem walk_no_panic (configs : List (String × RegistryConfig)) (original env : String) :
    ∀ n url, url.length ≤ n → url ≠ [] →
      walk configs original env url ≠ .panic := by
  intro n
  induction n with
  | zero =>
    intro url hlen hne
    cases url with
    | nil => exact absurd rfl hne
    | cons u url' => simp at hlen
  | succ n ih =>
    intro url hlen hne hcontra
    rw [walk_eq] at hcontra
    cases hlook : List.lookup (String.mk url) configs with
    | some c =>
      rw [hlook] at hcontra
      exact absurd hcontra (by simp)
    | none =>
      rw [hlook] at hcontra
      cases url with
      | nil => exact absurd rfl hne
      | cons u url' =>
        simp only [] at hcontra
        cases hr : rfindSlash ((u :: url').take ((u :: url').length - 1)) with
        | none =>
          rw [hr] at hcontra
          by_cases ho : original = env
          · rw [if_pos ho] at hcontra
            exact absurd hcontra (by simp)
          · rw [if_neg ho] at hcontra
            exact absurd hcontra (by simp)
        | some i =>
          rw [hr] at hcontra
          have hi := rfindSlash_lt _ i hr
          rw [List.length_take] at hi
          have hi2 : i < (u :: url').length - 1 := lt_of_lt_of_le hi (min_le_left _ _)
          have ht : ((u :: url').take (i + 1)).length ≤ i + 1 := List.length_take_le _ _
          exact ih ((u :: url').take (i + 1))
            (by simp only [List.length_cons] at hlen hi2 ⊢; omega)
            (by simp [List.take_succ_cons]) hcontra

/-! ## Claims about the resolver -/

/-- C1 counterexample: with three nested prefixes of the start key all
carrying entries (`example.com/a/b/`, `example.com/a/`, `example.com/`),
taking `P1 = example.com/a/` and `P2 = example.com/` satisfies the
claim's hypotheses (both on the walk, both with entries, `P1` longer),
yet the resolver returns the record stored at the still longer prefix
`example.com/a/b/`, which differs from the record stored at `P1` — the
claim as stated (return the record at `P1` for every such pair) is
false; only the deepest hit is returned. -/
theorem claim_C1_counterexample :
    startKey ⟨some "https://example.com/a/b", [],
        [("example.com/a/b/", ⟨none, some "A", none, none, none, none, none⟩),
         ("example.com/a/", ⟨none, some "B", none, none, none, none, none⟩),
         ("example.com/", ⟨none, some "C", none, none, none, none, none⟩)]⟩
        none "https://deno.land/npm/" = some ("example.com/a/b/").data ∧
      ("example.com/a/").data ∈ walkChain (("example.com/a/b/").data) ∧
      ("example.com/").data ∈ walkChain (("example.com/a/b/").data) ∧
      List.lookup "example.com/a/"
          [("example.com/a/b/", (⟨none, some "A", none, none, none, none, none⟩ : RegistryConfig)),
           ("example.com/a/", ⟨none, some "B", none, none, none, none, none⟩),
           ("example.com/", ⟨none, some "C", none, none, none, none, none⟩)] =
        some ⟨none, some "B", none, none, none, none, none⟩ ∧
      List.lookup "example.com/"
          [("example.com/a/b/", (⟨none, some "A", none, none, none, none, none⟩ : RegistryConfig)),
           ("example.com/a/", ⟨none, some "B", none, none, none, none, none⟩),
           ("example.com/", ⟨none, some "C", none, none, none, none, none⟩)] =
        some ⟨none, some "C", none, none, none, none, none⟩ ∧
      ("example.com/").data.length < ("example.com/a/").data.length ∧
      registry_url_and_config_for_maybe_scope
          ⟨some "https://example.com/a/b", [],
            [("example.com/a/b/", ⟨none, some "A", none, none, none, none, none⟩),
             ("example.com/a/", ⟨none, some "B", none, none, none, none, none⟩),
             ("example.com/", ⟨none, some "C", none, none, none, none, none⟩)]⟩
          none "https://deno.land/npm/" =
        .ret (some ("https://example.com/a/b/",
          ⟨none, some "A", none, none, none, none, none⟩)) ∧
      (⟨none, some "A", none, none, none, none, none⟩ : RegistryConfig) ≠
        ⟨none, some "B", none, none, none, none, none⟩ := by
  decide

/-- C1 (amended): the deepest hit of the prefix walk wins — for every
configuration, scope and fallback, if `P1` and `P2` are both on the walk
chain of the start key, both have entries in `registry_configs`, `P1` is
longer than `P2`, and no chain element longer than `P1` has an entry
(`P1` is the first hit of the walk), then the resolver returns the
normalized registry url paired with the record stored at `P1` — never
the one at the shorter `P2`. -/
theorem claim_C1_deepest_hit_wins (rc : NpmRc) (scope : Option String) (env : String)
    (S P1 P2 : List Char) (c1 c2 : RegistryConfig)
    (hS : startKey rc scope env = some S)
    (h1 : P1 ∈ walkChain S) (_h2 : P2 ∈ walkChain S)
    (hc1 : List.lookup (String.mk P1) rc.registry_configs = some c1)
    (_hc2 : List.lookup (String.mk P2) rc.registry_configs = some c2)
    (_hlen : P2.length < P1.length)
    (hdeep : ∀ Q ∈ walkChain S, P1.length < Q.length →
      List.lookup (String.mk Q) rc.registry_configs = none) :
    registry_url_and_config_for_maybe_scope rc scope env =
      .ret (some (originalUrl rc scope env, c1)) := by
  unfold registry_url_and_config_for_maybe_scope
  rw [hS]
  exact walk_first_hit rc.registry_configs (originalUrl rc scope env) env
    S.length S P1 c1 le_rfl h1 hc1 hdeep

/-- C1 witness: the spec's concrete scenario — scope `myorg` at
`https://example.com/myorg` with tokens at `example.com/` and
`example.com/myorg/`; the deeper prefix's token `MYTOKEN1` wins. -/
theorem claim_C1_witness :
    registry_url_and_config_for_maybe_scope
        ⟨some "https://registry.npmjs.org/",
          [("myorg", "https://example.com/myorg")],
          [("example.com/", ⟨none, some "MYTOKEN0", none, none, none, none, none⟩),
           ("example.com/myorg/", ⟨none, some "MYTOKEN1", none, none, none, none, none⟩)]⟩
        (some "myorg") "https://deno.land/npm/" =
      .ret (some ("https://example.com/myorg/",
        ⟨none, some "MYTOKEN1", none, none, none, none, none⟩)) := by
  have h := claim_C1_deepest_hit_wins
    ⟨some "https://registry.npmjs.org/",
      [("myorg", "https://example.com/myorg")],
      [("example.com/", ⟨none, some "MYTOKEN0", none, none, none, none, none⟩),
       ("example.com/myorg/", ⟨none, some "MYTOKEN1", none, none, none, none, none⟩)]⟩
    (some "myorg") "https://deno.land/npm/"
    ("example.com/myorg/myorg/").data ("example.com/myorg/").data ("example.com/").data
    ⟨none, some "MYTOKEN1", none, none, none, none, none⟩
    ⟨none, some "MYTOKEN0", none, none, none, none, none⟩
    (by decide) (by decide) (by decide) (by decide) (by decide) (by decide) (by decide)
  exact h.trans (by decide)

/-- C2 counterexample: with the fallback `"https://"` (scheme-stripped
remainder empty), no scope and an empty configuration, the prefix walk
starts at the empty key, finds no entry anywhere, and the normalized
`original_url` equals the fallback — the claim predicts `None`, but the
code panics on the slice `url[..url.len() - 1]`. -/
theorem claim_C2_counterexample :
    startKey ⟨none, [], []⟩ none "https://" = some [] ∧
      (∀ Q ∈ walkChain ([] : List Char),
        List.lookup (String.mk Q) (⟨none, [], []⟩ : NpmRc).registry_configs = none) ∧
      originalUrl ⟨none, [], []⟩ none "https://" = "https://" ∧
      registry_url_and_config_for_maybe_scope ⟨none, [], []⟩ none "https://" = .panic := by
  decide

/-- C2 (amended): the exhaustion tri-state, provided the walk's start
key is non-empty — if the walk finds no entry for any chain element,
the resolver returns `None` exactly when the normalized `original_url`
equals the fallback string, and otherwise `Some` of the url with the
empty credential record.  (When the start key is empty the code panics
instead, see the counterexample.) -/
theorem claim_C2_exhaustion_tristate (rc : NpmRc) (scope : Option String) (env : String)
    (S : List Char) (hS : startKey rc scope env = some S) (hne : S ≠ [])
    (hmiss : ∀ Q ∈ walkChain S, List.lookup (String.mk Q) rc.registry_configs = none) :
    registry_url_and_config_for_maybe_scope rc scope env =
      if originalUrl rc scope env = env then .ret none
      else .ret (some (originalUrl rc scope env, EMPTY_REGISTRY_CONFIG)) := by
  unfold registry_url_and_config_for_maybe_scope
  rw [hS]
  exact walk_all_miss rc.registry_configs (originalUrl rc scope env) env
    S.length S le_rfl hne hmiss

/-- C2 witness: a scope with its own registry (`@example` at
`https://example.com/`) and no credentials at any prefix resolves to the
registry url with the all-absent credential record, not `None`. -/
theorem claim_C2_witness :
    registry_url_and_config_for_maybe_scope
        ⟨none, [("example", "https://example.com/")], []⟩
        (some "example") "https://deno.land/npm/" =
      .ret (some ("https://example.com/", EMPTY_REGISTRY_CONFIG)) := by
  have h := claim_C2_exhaustion_tristate
    ⟨none, [("example", "https://example.com/")], []⟩
    (some "example") "https://deno.land/npm/" ("example.com/example/").data
    (by decide) (by decide) (by decide)
  exact h.trans (by decide)

/-- C3 counterexample: resolving with no scope and no global registry
against the fallback `"https://deno.land/npm"` (no trailing slash, no
credentials configured anywhere) yields `Some` of the slash-normalized
fallback with empty credentials instead of the claimed `None`: the
exhaustion comparison `original_registry_url == env_registry_url`
(src/npm_rc/mod.rs:218) spuriously fails because normalization appended
the trailing slash. -/
theorem claim_C3_counterexample :
    (⟨none, [], []⟩ : NpmRc).registry = none ∧
      (⟨none, [], []⟩ : NpmRc).registry_configs = [] ∧
      registry_url_and_config_for_maybe_scope ⟨none, [], []⟩ none
          "https://deno.land/npm" =
        .ret (some ("https://deno.land/npm/", EMPTY_REGISTRY_CONFIG)) := by
  decide

/-- C3 (amended): for every configuration with no global registry,
resolving with no scope against a fallback `F` that already ends with a
trailing slash yields `None` whenever no prefix on the walk has
credentials (and the walk's start key, when the fallback contains `//`
at all, is non-empty).  Without the trailing slash the comparison of
step 6 fails and the resolver yields `Some` instead, see the
counterexample. -/
theorem claim_C3_nothing_configured (rc : NpmRc) (F : String)
    (hreg : rc.registry = none) (hslash : endsWithSlash F = true)
    (h : startKey rc none F = none ∨
      ∃ S, startKey rc none F = some S ∧ S ≠ [] ∧
        ∀ Q ∈ walkChain S, List.lookup (String.mk Q) rc.registry_configs = none) :
    registry_url_and_config_for_maybe_scope rc none F = .ret none := by
  have horig : originalUrl rc none F = F := by
    simp [originalUrl, baseRegistryUrl, hreg, hslash]
  rcases h with h | ⟨S, hS, hne, hmiss⟩
  · unfold registry_url_and_config_for_maybe_scope
    rw [h]
  · unfold registry_url_and_config_for_maybe_scope
    rw [hS]
    show walk rc.registry_configs (originalUrl rc none F) F S = RResult.ret none
    rw [walk_all_miss rc.registry_configs (originalUrl rc none F) F
      S.length S le_rfl hne hmiss, horig, if_pos rfl]

/-- C3 witness: the amended claim at the slash-terminated fallback
`https://deno.land/npm/` with the empty configuration. -/
theorem claim_C3_witness :
    registry_url_and_config_for_maybe_scope ⟨none, [], []⟩ none
        "https://deno.land/npm/" = .ret none :=
  claim_C3_nothing_configured ⟨none, [], []⟩ "https://deno.land/npm/" rfl (by decide)
    (Or.inr ⟨("deno.land/npm/").data, by decide, by decide, by decide⟩)

/-- C10 counterexample: with the global registry `"https://"` the
scheme-stripped remainder is empty, so the walk starts at the empty key
and the slice `url[..url.len() - 1]` (src/npm_rc/mod.rs:217) is out of
bounds — the function panics rather than returning. -/
theorem claim_C10_counterexample :
    registry_url_and_config_for_maybe_scope ⟨some "https://", [], []⟩ none
        "https://deno.land/npm/" = .panic := by
  decide

/-- C10 (amended): the resolver is total and never panics provided the
walk's start key is non-empty — each iteration strictly shortens the key
(`walkChain_mem_le`), and every slice stays in bounds; but when the
scheme-stripped start key is empty (e.g. a registry string `"https://"`)
and carries no entry, the slice `url[..url.len() - 1]` underflows and
the function panics, see the counterexample. -/
theorem claim_C10_resolver_no_panic (rc : NpmRc) (scope : Option String) (env : String)
    (h : startKey rc scope env ≠ some []) :
    registry_url_and_config_for_maybe_scope rc scope env ≠ .panic := by
  unfold registry_url_and_config_for_maybe_scope
  cases hS : startKey rc scope env with
  | none => simp
  | some S =>
    have hne : S ≠ [] := by
      intro hh
      subst hh
      exact h hS
    exact walk_no_panic rc.registry_configs (originalUrl rc scope env) env
      S.length S le_rfl hne

/-- C10 witness: no panic at the ordinary fallback
`https://registry.npmjs.org/` with the empty configuration. -/
theorem claim_C10_witness :
    registry_url_and_config_for_maybe_scope ⟨none, [], []⟩ none
        "https://registry.npmjs.org/" ≠ .panic :=
  claim_C10_resolver_no_panic ⟨none, [], []⟩ none "https://registry.npmjs.org/" (by decide)

/-! ## Lemmas about the config builder -/

/-- `rsplitColonChars` reconstructs its input around the split `':'`. -/
theorem rsplitColonChars_eq :
    ∀ l a b, rsplitColonChars l = some (a, b) → l = a ++ ':' :: b := by
  intro l
  induction l with
  | nil => intro a b h; simp [rsplitColonChars] at h
  | cons c rest ih =>
    intro a b h
    simp only [rsplitColonChars] at h
    cases hr : rsplitColonChars rest with
    | some p =>
      rw [hr] at h
      simp only [Option.some.injEq, Prod.mk.injEq] at h
      obtain ⟨ha, hb⟩ := h
      subst ha
      subst hb
      rw [ih p.1 p.2 (by rw [hr])]
      rfl
    | none =>
      rw [hr] at h
      by_cases hc : c = ':'
      · rw [if_pos hc] at h
        simp only [Option.some.injEq, Prod.mk.injEq] at h
        obtain ⟨ha, hb⟩ := h
        subst ha
        subst hb
        rw [hc]
        rfl
      · rw [if_neg hc] at h
        simp at h

/-- `stripAt` succeeds exactly on a leading `'@'`. -/
theorem stripAt_eq : ∀ l r, stripAt l = some r → l = '@' :: r := by
  intro l r h
  match l with
  | [] => simp [stripAt] at h
  | c :: rest =>
    simp only [stripAt] at h
    by_cases hc : c = '@'
    · rw [if_pos hc] at h
      simp only [Option.some.injEq] at h
      rw [hc, h]
    · rw [if_neg hc] at h
      exact absurd h (by simp)

/-- `stripSlashes` succeeds exactly on a leading `"//"`. -/
theorem stripSlashes_eq : ∀ l r, stripSlashes l = some r → l = '/' :: '/' :: r := by
  intro l r h
  match l with
  | [] => simp [stripSlashes] at h
  | [c] => simp [stripSlashes] at h
  | c1 :: c2 :: rest =>
    simp only [stripSlashes] at h
    by_cases hc : c1 = '/' ∧ c2 = '/'
    · rw [if_pos hc] at h
      simp only [Option.some.injEq] at h
      rw [hc.1, hc.2, h]
    · rw [if_neg hc] at h
      exact absurd h (by simp)

/-- A binding of `insertMap` is the inserted key or an original binding. -/
theorem insertMap_mem {α : Type} :
    ∀ (m : List (String × α)) (k1 : String) (v : α) (k : String) (c : α),
      (k, c) ∈ insertMap m k1 v → k = k1 ∨ (k, c) ∈ m := by
  intro m
  induction m with
  | nil =>
    intro k1 v k c h
    simp only [insertMap, List.mem_singleton, Prod.mk.injEq] at h
    exact Or.inl h.1
  | cons p rest ih =>
    intro k1 v k c h
    obtain ⟨k0, v0⟩ := p
    simp only [insertMap] at h
    by_cases hk : k0 = k1
    · rw [if_pos hk] at h
      rcases List.mem_cons.mp h with h1 | h1
      · simp only [Prod.mk.injEq] at h1
        exact Or.inl h1.1
      · exact Or.inr (List.mem_cons_of_mem _ h1)
    · rw [if_neg hk] at h
      rcases List.mem_cons.mp h with h1 | h1
      · exact Or.inr (by rw [h1]; exact List.mem_cons_self _ _)
      · rcases ih k1 v k c h1 with h2 | h2
        · exact Or.inl h2
        · exact Or.inr (List.mem_cons_of_mem _ h2)

/-- A string is the `String.mk` of its character list. -/
theorem string_eq_mk_data (s : String) : s = String.mk s.data := rfl

/-- One builder step: any credential key present afterwards was present
before or comes verbatim from this record's `//key:suffix` text. -/
theorem applyRecord_configs_mem (env : String → Option String) (rc : NpmRc)
    (r : KeyValueOrSection) (k : String) (c : RegistryConfig)
    (h : (k, c) ∈ (applyRecord env rc r).registry_configs) :
    (∃ c2, (k, c2) ∈ rc.registry_configs) ∨
      ∃ rightS valueS,
        r = KeyValueOrSection.kv
          ⟨IniKey.plain ("//" ++ k ++ ":" ++ rightS), IniValue.str valueS⟩ := by
  match r with
  | .sec => exact Or.inl ⟨c, h⟩
  | .kv ⟨.quoted s, value⟩ => exact Or.inl ⟨c, h⟩
  | .kv ⟨.plain kstr, value⟩ =>
    simp only [applyRecord] at h
    split at h
    · -- rsplit_once(':') succeeded
      rename_i leftD rightD hsplit
      split at h
      · -- leading '@': only scope_registries can change
        split at h
        · split at h
          · exact Or.inl ⟨c, h⟩
          · exact Or.inl ⟨c, h⟩
        · exact Or.inl ⟨c, h⟩
      · -- no leading '@'
        rename_i hat
        split at h
        · -- leading "//": the credential insertion
          rename_i hostD hslash
          split at h
          · -- a plain string value
            rename_i text
            rcases insertMap_mem rc.registry_configs (String.mk hostD) _ k c h with
              hk | hk
            · right
              refine ⟨String.mk rightD, text, ?_⟩
              have hdata : kstr.data = leftD ++ ':' :: rightD :=
                rsplitColonChars_eq kstr.data leftD rightD hsplit
              have hleft : leftD = '/' :: '/' :: hostD := stripSlashes_eq leftD hostD hslash
              have hr2 : ("//" ++ String.mk hostD ++ ":" ++ String.mk rightD).data =
                  ('/' :: '/' :: hostD) ++ ':' :: rightD := by
                show ((['/', '/'] ++ hostD) ++ [':']) ++ rightD =
                  ('/' :: '/' :: hostD) ++ ':' :: rightD
                simp only [List.append_assoc, List.cons_append, List.nil_append]
              have hkstr : kstr = "//" ++ String.mk hostD ++ ":" ++ String.mk rightD := by
                have hd2 : kstr.data =
                    ("//" ++ String.mk hostD ++ ":" ++ String.mk rightD).data := by
                  rw [hr2, hdata, hleft]
                rw [string_eq_mk_data kstr, hd2]
              rw [hk, hkstr]
            · exact Or.inl ⟨c, hk⟩
          · exact Or.inl ⟨c, h⟩
        · exact Or.inl ⟨c, h⟩
    · -- no ':' in the key: only the global registry can change
      split at h
      · split at h
        · exact Or.inl ⟨c, h⟩
        · exact Or.inl ⟨c, h⟩
      · exact Or.inl ⟨c, h⟩

/-- One builder step: any scope key present afterwards was present
before or comes verbatim from this record's `@scope:registry` text. -/
theorem applyRecord_scopes_mem (env : String → Option String) (rc : NpmRc)
    (r : KeyValueOrSection) (s : String) (u : String)
    (h : (s, u) ∈ (applyRecord env rc r).scope_registries) :
    (∃ u2, (s, u2) ∈ rc.scope_registries) ∨
      ∃ valueS,
        r = KeyValueOrSection.kv
          ⟨IniKey.plain ("@" ++ s ++ ":registry"), IniValue.str valueS⟩ := by
  match r with
  | .sec => exact Or.inl ⟨u, h⟩
  | .kv ⟨.quoted s0, value⟩ => exact Or.inl ⟨u, h⟩
  | .kv ⟨.plain kstr, value⟩ =>
    simp only [applyRecord] at h
    split at h
    · -- rsplit_once(':') succeeded
      rename_i leftD rightD hsplit
      split at h
      · -- leading '@': the scope insertion
        rename_i scopeD hat
        split at h
        · -- right part is "registry"
          rename_i hreg
          split at h
          · -- a plain string value
            rename_i text
            rcases insertMap_mem rc.scope_registries (String.mk scopeD) _ s u h with
              hs | hs
            · right
              refine ⟨text, ?_⟩
              have hdata : kstr.data = leftD ++ ':' :: rightD :=
                rsplitColonChars_eq kstr.data leftD rightD hsplit
              have hleft : leftD = '@' :: scopeD := stripAt_eq leftD scopeD hat
              have hright : rightD = ("registry").data := congrArg String.data hreg
              have hr2 : ("@" ++ String.mk scopeD ++ ":registry").data =
                  ('@' :: scopeD) ++ ':' :: ("registry").data := by
                show (['@'] ++ scopeD) ++ (':' :: ("registry").data) =
                  ('@' :: scopeD) ++ ':' :: ("registry").data
                simp only [List.append_assoc, List.cons_append, List.nil_append]
              have hkstr : kstr = "@" ++ String.mk scopeD ++ ":registry" := by
                have hd2 : kstr.data = ("@" ++ String.mk scopeD ++ ":registry").data := by
                  rw [hr2, hdata, hleft, hright]
                rw [string_eq_mk_data kstr, hd2]
              rw [hs, hkstr]
            · exact Or.inl ⟨u, hs⟩
          · exact Or.inl ⟨u, h⟩
        · exact Or.inl ⟨u, h⟩
      · -- no leading '@': only registry_configs can change
        split at h
        · split at h
          · exact Or.inl ⟨u, h⟩
          · exact Or.inl ⟨u, h⟩
        · exact Or.inl ⟨u, h⟩
    · -- no ':' in the key: only the global registry can change
      split at h
      · split at h
        · exact Or.inl ⟨u, h⟩
        · exact Or.inl ⟨u, h⟩
      · exact Or.inl ⟨u, h⟩

/-- Folding the builder: credential-key provenance over a record list. -/
theorem parse_configs_prov (env : String → Option String) :
    ∀ recs (rc0 : NpmRc) (k : String) (c : RegistryConfig),
      (k, c) ∈ (List.foldl (applyRecord env) rc0 recs).registry_configs →
      (∃ c2, (k, c2) ∈ rc0.registry_configs) ∨
        ∃ rightS valueS,
          KeyValueOrSection.kv
            ⟨IniKey.plain ("//" ++ k ++ ":" ++ rightS), IniValue.str valueS⟩ ∈ recs := by
  intro recs
  induction recs with
  | nil => intro rc0 k c h; exact Or.inl ⟨c, h⟩
  | cons r recs ih =>
    intro rc0 k c h
    simp only [List.foldl_cons] at h
    rcases ih (applyRecord env rc0 r) k c h with ⟨c2, h2⟩ | ⟨rS, vS, h2⟩
    · rcases applyRecord_configs_mem env rc0 r k c2 h2 with h3 | ⟨rS, vS, h3⟩
      · exact Or.inl h3
      · exact Or.inr ⟨rS, vS, by rw [← h3]; exact List.mem_cons_self _ _⟩
    · exact Or.inr ⟨rS, vS, List.mem_cons_of_mem _ h2⟩

/-- Folding the builder: scope-key provenance over a record list. -/
theorem parse_scopes_prov (env : String → Option String) :
    ∀ recs (rc0 : NpmRc) (s u : String),
      (s, u) ∈ (List.foldl (applyRecord env) rc0 recs).scope_registries →
      (∃ u2, (s, u2) ∈ rc0.scope_registries) ∨
        ∃ valueS,
          KeyValueOrSection.kv
            ⟨IniKey.plain ("@" ++ s ++ ":registry"), IniValue.str valueS⟩ ∈ recs := by
  intro recs
  induction recs with
  | nil => intro rc0 s u h; exact Or.inl ⟨u, h⟩
  | cons r recs ih =>
    intro rc0 s u h
    simp only [List.foldl_cons] at h
    rcases ih (applyRecord env rc0 r) s u h with ⟨u2, h2⟩ | ⟨vS, h2⟩
    · rcases applyRecord_scopes_mem env rc0 r s u2 h2 with h3 | ⟨vS, h3⟩
      · exact Or.inl h3
      · exact Or.inr ⟨vS, by rw [← h3]; exact List.mem_cons_self _ _⟩
    · exact Or.inr ⟨vS, List.mem_cons_of_mem _ h2⟩

/-- C5 counterexample: the directive `//example.com:_authToken=T`
(written without a trailing slash before the `:`) produces the
credential key `"example.com"`, which does not end in `'/'`, and the
directive `@x@y:registry=u` produces the scope key `"x@y"`, which
contains `'@'` — `NpmRc::parse` copies the key text verbatim, so both
claimed invariants fail. -/
theorem claim_C5_counterexample :
    (parseRecords
        [KeyValueOrSection.kv ⟨IniKey.plain "//example.com:_authToken", IniValue.str "T"⟩,
         KeyValueOrSection.kv ⟨IniKey.plain "@x@y:registry", IniValue.str "u"⟩]
        (fun _ => none)).registry_configs =
      [("example.com", ⟨none, some "T", none, none, none, none, none⟩)] ∧
    (parseRecords
        [KeyValueOrSection.kv ⟨IniKey.plain "//example.com:_authToken", IniValue.str "T"⟩,
         KeyValueOrSection.kv ⟨IniKey.plain "@x@y:registry", IniValue.str "u"⟩]
        (fun _ => none)).scope_registries = [("x@y", "u")] ∧
    endsWithSlash "example.com" = false ∧ '@' ∈ ("x@y").data := by
  decide

/-- C5 (amended): the builder copies key text verbatim — every key `k`
of `registry_configs` produced by `NpmRc::parse` stems from a plain
string-valued record whose key reads `//k:suffix` for some suffix (so
`k` ends in `'/'` exactly when written that way), and every key `s` of
`scope_registries` stems from a record whose key reads `@s:registry`
(so `s` is free of `'@'` exactly when the scope was written that way). -/
theorem claim_C5_key_provenance (recs : List KeyValueOrSection)
    (env : String → Option String) :
    (∀ k c, (k, c) ∈ (parseRecords recs env).registry_configs →
      ∃ rightS valueS,
        KeyValueOrSection.kv
          ⟨IniKey.plain ("//" ++ k ++ ":" ++ rightS), IniValue.str valueS⟩ ∈ recs) ∧
    (∀ s u, (s, u) ∈ (parseRecords recs env).scope_registries →
      ∃ valueS,
        KeyValueOrSection.kv
          ⟨IniKey.plain ("@" ++ s ++ ":registry"), IniValue.str valueS⟩ ∈ recs) := by
  constructor
  · intro k c h
    rcases parse_configs_prov env recs ⟨none, [], []⟩ k c h with ⟨c2, h2⟩ | h2
    · simp at h2
    · exact h2
  · intro s u h
    rcases parse_scopes_prov env recs ⟨none, [], []⟩ s u h with ⟨u2, h2⟩ | h2
    · simp at h2
    · exact h2

/-- C5 witness: the key `example.com/` of the parsed record set stems
from a `//example.com/:_authToken` directive. -/
theorem claim_C5_witness :
    ∃ rightS valueS,
      KeyValueOrSection.kv
        ⟨IniKey.plain ("//" ++ "example.com/" ++ ":" ++ rightS), IniValue.str valueS⟩ ∈
        [KeyValueOrSection.kv
          ⟨IniKey.plain "//example.com/:_authToken", IniValue.str "T"⟩] :=
  (claim_C5_key_provenance
    [KeyValueOrSection.kv ⟨IniKey.plain "//example.com/:_authToken", IniValue.str "T"⟩]
    (fun _ => none)).1 "example.com/" ⟨none, some "T", none, none, none, none, none⟩
    (by decide)

/-! ## Claims about the resolved view -/

/-- C4 counterexample: for the configuration `@foo:registry=bar`
(a registry string without `//`), the resolver yields nothing for scope
`foo`, and `as_resolved` fails with the `anyhow::bail!` error
`failed resolving .npmrc config for scope` (src/npm_rc/mod.rs:142) even
though every url parses — an error that is not a URL-parse error,
refuting the claim that `as_resolved` fails only with URL-parse
errors. -/
theorem claim_C4_counterexample :
    as_resolved (fun s => some ⟨s⟩) ⟨none, [("foo", "bar")], []⟩
        ⟨"https://deno.land/npm/"⟩ =
      .err (.failedResolvingScope "foo") := by
  decide

/-- C4 (amended): `as_resolved` fails either with a URL-parse error
(annotated with the scope, or unannotated for the default entry), or
with the `failed resolving .npmrc config for scope` error when the
resolver yields nothing for a scope (or a panic propagated from the
resolver) — and when every scope resolves and the resolver yields
nothing for the default entry, the view falls back to the fallback URL
with empty credentials rather than erroring. -/
theorem claim_C4_default_fallback (parseUrl : String → Option UrlT) (rc : NpmRc)
    (env : UrlT) (l : List (String × RegistryConfigWithUrl))
    (hs : resolveScopes parseUrl rc env (rc.scope_registries.map Prod.fst) = .ok l)
    (hd : registry_url_and_config_for_maybe_scope rc none env.s = .ret none) :
    as_resolved parseUrl rc env = .ok ⟨⟨env, EMPTY_REGISTRY_CONFIG⟩, l⟩ := by
  unfold as_resolved
  rw [hs, hd]

/-- C4 witness: the empty configuration against the fallback
`https://deno.land/npm/` — the default entry falls back to the fallback
URL with empty credentials. -/
theorem claim_C4_witness :
    as_resolved (fun s => some ⟨s⟩) ⟨none, [], []⟩ ⟨"https://deno.land/npm/"⟩ =
      .ok ⟨⟨⟨"https://deno.land/npm/"⟩, EMPTY_REGISTRY_CONFIG⟩, []⟩ :=
  claim_C4_default_fallback (fun s => some ⟨s⟩) ⟨none, [], []⟩ ⟨"https://deno.land/npm/"⟩
    [] (by decide) (by decide)
